import Mathlib

/-! Verification of the memobase locomo-benchmark add-memories client
(`memobase_add.py`): batching, retry, conversation splitting, and the
driver, modelled as pure functions with explicit effect oracles. -/

/-- An outbound chat message, as built in `process_conversation`:
`{"role": "user", "content": chat["text"], "alias": speaker, "created_at": timestamp}`. -/
structure Msg where
  role : String
  content : String
  «alias» : String
  created_at : String
deriving Repr, DecidableEq

/-- One chat turn of a segment: `{"speaker": ..., "text": ...}`. -/
structure Turn where
  speaker : String
  text : String
deriving Repr, DecidableEq

/-- A concrete outbound message used in concrete test inputs. -/
def mA : Msg := ⟨"user", "hi", "A", "t1"⟩

/-- A second concrete outbound message used in concrete test inputs. -/
def mB : Msg := ⟨"user", "yo", "B", "t1"⟩

/-- Iteration core of Python `range(start, stop, step)`: while `start < stop`,
yield `start` and advance by `step`.  The `fuel` argument only bounds the
number of iterations so the recursion is structural; `stop - start` iterations
always suffice when `step ≥ 1`. -/
def rangeStepGo (stop step : Nat) : Nat → Nat → List Nat
  | _, 0 => []
  | start, fuel + 1 =>
    if start < stop then start :: rangeStepGo stop step (start + step) fuel
    else []

/-- Python `range(start, stop, step)` for a positive step: the indices
`start, start+step, ...` strictly below `stop`. -/
def rangeStep (start stop step : Nat) : List Nat :=
  rangeStepGo stop step start (stop - start)

/-- The batching loop of `add_memories_for_speaker`:
`for i in range(0, len(messages), batch_size): messages[i : i + batch_size]`.
Python slice `xs[i : i + B]` is `(xs.drop i).take B`. -/
def batches (messages : List α) (batch_size : Nat) : List (List α) :=
  (rangeStep 0 messages.length batch_size).map
    (fun i => (messages.drop i).take batch_size)

/-- The retry loop of `add_memory`:
`for attempt in range(retries): try insert; return / except: if attempt <
retries-1: sleep; continue else: raise e`.  `res k` is the outcome of the
`k`-th call to `user.insert` (`none` = success, `some e` = exception `e`).
`fuel` bounds remaining iterations (initially `retries`, decreasing by one per
loop iteration, so it never runs out before the loop guard fails).  Returns
the list of attempt indices at which `user.insert` was called, in order, and
`none` if `add_memory` returned normally or `some e` if it re-raised `e`. -/
def addMemoryGo (res : Nat → Option E) (retries : Nat) :
    Nat → Nat → List Nat × Option E
  | _, 0 => ([], none)
  | attempt, fuel + 1 =>
    match res attempt with
    | none => ([attempt], none)
    | some e =>
      if attempt < retries - 1 then
        let r := addMemoryGo res retries (attempt + 1) fuel
        (attempt :: r.1, r.2)
      else ([attempt], some e)

/-- `add_memory(user, message, retries=3)`: the retry loop started at
attempt 0. -/
def add_memory (res : Nat → Option E) (retries : Nat) :
    List Nat × Option E :=
  addMemoryGo res retries 0 retries

/-- A concrete insert oracle that fails on the first two attempts and
succeeds on the third. -/
def resThirdTry : Nat → Option String :=
  fun k => if k = 2 then none else some "boom"

/-- A concrete insert oracle that fails on every attempt. -/
def resAllFail : Nat → Option String :=
  fun _ => some "down"

/-- The per-segment splitting loop of `process_conversation`: for each chat,
if `chat["speaker"] == speaker_a` append
`{"role": "user", "content": chat["text"], "alias": speaker_a,
"created_at": timestamp}` to `messages`; elif `chat["speaker"] == speaker_b`
append the analogous record to `messages_reverse`; else raise
the unknown-speaker `ValueError` carrying the turn speaker label. -/
def splitChats (speaker_a speaker_b timestamp : String) :
    List Turn → Except String (List Msg × List Msg)
  | [] => Except.ok ([], [])
  | chat :: rest =>
    if chat.speaker = speaker_a then
      match splitChats speaker_a speaker_b timestamp rest with
      | Except.error e => Except.error e
      | Except.ok (messages, messages_reverse) =>
        Except.ok
          (⟨"user", chat.text, speaker_a, timestamp⟩ :: messages,
           messages_reverse)
    else if chat.speaker = speaker_b then
      match splitChats speaker_a speaker_b timestamp rest with
      | Except.error e => Except.error e
      | Except.ok (messages, messages_reverse) =>
        Except.ok
          (messages,
           ⟨"user", chat.text, speaker_b, timestamp⟩ :: messages_reverse)
    else
      Except.error ("Unknown speaker: " ++ chat.speaker)

/-- Observable effects of `add_memories_for_speaker` on the remote service
and the local filesystem. -/
inductive Ev where
  /-- A call `user.insert(ChatBlob(messages=batch))`, the given retry
  attempt of the given batch. -/
  | insert (batch : List Msg) (attempt : Nat)
  /-- The call `user.flush()`. -/
  | flush
  /-- The call `user.profile(need_json=True)`. -/
  | profileFetch
  /-- Writing the profile snapshot to `memobase_memories/{uid}.json`. -/
  | profileWrite
  /-- The log line `print(f"Failed to save profile ...")` of the
  `except` branch around the profile snapshot. -/
  | logProfileFailure
deriving Repr, DecidableEq

/-- Outcomes of the remote/filesystem calls made on behalf of one speaker:
`insertRes i k` is the outcome of the `k`-th attempt of inserting the `i`-th
batch; `flushRes`, `profileRes`, `writeRes` are the outcomes of `u.flush()`,
`u.profile(need_json=True)` and the snapshot file write
(`none` = success, `some e` = exception `e`). -/
structure SpeakerOracle where
  insertRes : Nat → Nat → Option String
  flushRes : Option String
  profileRes : Option String
  writeRes : Option String

/-- The batch loop of `add_memories_for_speaker`: for each batch in order,
run `add_memory` (3 attempts); a batch whose retries are exhausted re-raises
and aborts the remaining batches.  Returns the emitted insert events and the
propagated exception, if any. -/
def runBatches (insertRes : Nat → Nat → Option String) :
    List (List Msg) → Nat → List Ev × Option String
  | [], _ => ([], none)
  | b :: rest, i =>
    let r := add_memory (insertRes i) 3
    let evs := r.1.map (fun att => Ev.insert b att)
    match r.2 with
    | some e => (evs, some e)
    | none =>
      let r2 := runBatches insertRes rest (i + 1)
      (evs ++ r2.1, r2.2)

/-- `add_memories_for_speaker(speaker, messages, desc)`: upload all batches
(`add_memory` per batch), then `u.flush()`, then `try: fetch and write the
profile snapshot; except: log`.  Returns the event trace and the exception
propagated to the caller, if any. -/
def add_memories_for_speaker (o : SpeakerOracle) (messages : List Msg)
    (batch_size : Nat) : List Ev × Option String :=
  let r := runBatches o.insertRes (batches messages batch_size) 0
  match r.2 with
  | some e => (r.1, some e)
  | none =>
    match o.flushRes with
    | some e => (r.1 ++ [Ev.flush], some e)
    | none =>
      match o.profileRes with
      | some _ =>
        (r.1 ++ [Ev.flush, Ev.profileFetch, Ev.logProfileFailure], none)
      | none =>
        match o.writeRes with
        | some _ =>
          (r.1 ++ [Ev.flush, Ev.profileFetch, Ev.profileWrite,
            Ev.logProfileFailure], none)
        | none =>
          (r.1 ++ [Ev.flush, Ev.profileFetch, Ev.profileWrite], none)

/-- Observable effects of `process_conversation`: the two `delete_user`
calls and, per speaker, the effects of that speaker's
`add_memories_for_speaker` thread. -/
inductive CEv where
  /-- `client.delete_user(string_to_uuid(speaker_a_user_id))`. -/
  | deleteA
  /-- `client.delete_user(string_to_uuid(speaker_b_user_id))`. -/
  | deleteB
  /-- An effect of speaker A's upload thread. -/
  | evA (e : Ev)
  /-- An effect of speaker B's upload thread. -/
  | evB (e : Ev)
deriving Repr, DecidableEq

/-- The deletion preamble of `process_conversation`:
`try: client.delete_user(uid_a); client.delete_user(uid_b) except: pass`.
Both calls sit in one `try` block, so an exception from the first delete
skips the second; either way the exception is swallowed.  Returns the list
of delete calls attempted. -/
def deleteUsers (delA _delB : Option String) : List CEv :=
  match delA with
  | some _ => [CEv.deleteA]
  | none => [CEv.deleteA, CEv.deleteB]

/-- The oracles for one segment: one `SpeakerOracle` per upload thread. -/
structure SegOracle where
  oA : SpeakerOracle
  oB : SpeakerOracle

/-- Processing of one segment inside `process_conversation`: build the two
per-speaker message lists (raising `ValueError` on an unknown speaker before
any upload is started), then run the two `add_memories_for_speaker` threads
and join both.  A `threading.Thread` swallows exceptions of its target, so
only the unknown-speaker `ValueError` propagates from the segment. -/
def processSegment (o : SegOracle) (speaker_a speaker_b timestamp : String)
    (chats : List Turn) (batch_size : Nat) : List CEv × Option String :=
  match splitChats speaker_a speaker_b timestamp chats with
  | Except.error e => ([], some e)
  | Except.ok (messages, messages_reverse) =>
    let rA := add_memories_for_speaker o.oA messages batch_size
    let rB := add_memories_for_speaker o.oB messages_reverse batch_size
    (rA.1.map CEv.evA ++ rB.1.map CEv.evB, none)

/-- A conversation record as `process_conversation` consumes it: the two
speaker labels and the eligible segments in key order, each a
`(<key>_date_time timestamp, chats)` pair. -/
structure Conversation where
  speaker_a : String
  speaker_b : String
  segments : List (String × List Turn)

/-- The segment loop of `process_conversation`: segments in order, each
processed in full before the next; an unknown-speaker `ValueError` aborts
the remaining segments.  `oracles i` supplies the effect outcomes for the
`i`-th segment. -/
def processSegments (oracles : Nat → SegOracle) (a b : String) (B : Nat) :
    List (String × List Turn) → Nat → List CEv × Option String
  | [], _ => ([], none)
  | (ts, chats) :: rest, i =>
    let r := processSegment (oracles i) a b ts chats B
    match r.2 with
    | some e => (r.1, some e)
    | none =>
      let r2 := processSegments oracles a b B rest (i + 1)
      (r.1 ++ r2.1, r2.2)

/-- `process_conversation(item, idx)`: the best-effort delete preamble
(outcomes `delA`, `delB`), then the segment loop. -/
def process_conversation (delA delB : Option String)
    (oracles : Nat → SegOracle) (conv : Conversation) (B : Nat) :
    List CEv × Option String :=
  let dels := deleteUsers delA delB
  let r := processSegments oracles conv.speaker_a conv.speaker_b B
    conv.segments 0
  (dels ++ r.1, r.2)

/-- Python truthiness of the `max_samples` argument: `None` and `0` are
falsy. -/
def truthy : Option Nat → Bool
  | none => false
  | some n => n != 0

/-- `process_all_conversations(max_workers, max_samples)`: raise
`ValueError` if `not self.data`; else truncate to `data[:max_samples]` when
`max_samples` is truthy, and submit `process_conversation(item, idx)` for
`idx, item in enumerate(self.data)`.  Returns the submitted
`(idx, item)` tasks in submission order. -/
def process_all_conversations (data : Option (List α))
    (max_samples : Option Nat) : Except String (List (Nat × α)) :=
  match data with
  | none =>
    Except.error "No data loaded. Please set data_path and call load_data() first."
  | some d =>
    if d.isEmpty then
      Except.error "No data loaded. Please set data_path and call load_data() first."
    else
      let d2 := if truthy max_samples then d.take (max_samples.getD 0) else d
      Except.ok d2.enum

/-- A speaker oracle on which every remote call succeeds. -/
def okOracle : SpeakerOracle := ⟨fun _ _ => none, none, none, none⟩

/-- A speaker oracle on which the profile fetch fails. -/
def profileFailOracle : SpeakerOracle :=
  ⟨fun _ _ => none, none, some "profile down", none⟩

/-- A speaker oracle on which `u.flush()` fails. -/
def flushFailOracle : SpeakerOracle :=
  ⟨fun _ _ => none, some "flush down", none, none⟩

/-- Segment oracles on which every remote call succeeds. -/
def okSegOracle : Nat → SegOracle := fun _ => ⟨okOracle, okOracle⟩

/-- The end-to-end example conversation of the specification:
`{speaker_a: "A", speaker_b: "B",
seg1: [{"speaker":"A","text":"hi"},{"speaker":"B","text":"yo"}],
seg1_date_time: "t1"}`. -/
def convExample : Conversation :=
  ⟨"A", "B", [("t1", [⟨"A", "hi"⟩, ⟨"B", "yo"⟩])]⟩

/-- The ceiling-division step identity behind the batch count. -/
theorem ceilDiv_succ_step (d step : Nat) (hd : 0 < d) (hstep : 0 < step) :
    (d + step - 1) / step = (d - step + step - 1) / step + 1 := by
  by_cases hds : step ≤ d
  · have h1 : d - step + step - 1 = d - 1 := by omega
    have h2 : d + step - 1 = (d - 1) + step := by omega
    rw [h1, h2, Nat.add_div_right _ hstep]
  · have h1 : d - step = 0 := by omega
    have h2 : (0 + step - 1) / step = 0 := Nat.div_eq_of_lt (by omega)
    have h3 : (d + step - 1) / step = 1 := by
      apply Nat.div_eq_of_lt_le <;> omega
    rw [h1, h3, h2]

/-- With enough fuel, the range iteration yields exactly
`⌈(stop - start)/step⌉` indices: `start, start + step, ...`. -/
theorem rangeStepGo_eq_map (stop step : Nat) (hstep : 0 < step) :
    ∀ fuel start, stop - start ≤ fuel →
      rangeStepGo stop step start fuel
        = (List.range ((stop - start + step - 1) / step)).map
            (fun k => start + k * step) := by
  intro fuel
  induction fuel with
  | zero =>
    intro start h
    have h0 : stop - start = 0 := by omega
    rw [h0]
    have hc : (0 + step - 1) / step = 0 := Nat.div_eq_of_lt (by omega)
    rw [hc]
    simp [rangeStepGo]
  | succ n ih =>
    intro start h
    by_cases hlt : start < stop
    · have hfuel : stop - (start + step) ≤ n := by omega
      rw [rangeStepGo, if_pos hlt, ih (start + step) hfuel]
      have hd : 0 < stop - start := by omega
      have hc : (stop - start + step - 1) / step
          = (stop - start - step + step - 1) / step + 1 :=
        ceilDiv_succ_step (stop - start) step hd hstep
      have he : stop - (start + step) = stop - start - step := by omega
      rw [he, hc, List.range_succ_eq_map, List.map_cons, List.map_map]
      refine List.cons_eq_cons.mpr ⟨by omega, ?_⟩
      apply List.map_congr_left
      intro a _
      simp only [Function.comp_apply, Nat.succ_eq_add_one]
      ring
    · have h0 : stop - start = 0 := by omega
      rw [rangeStepGo, if_neg hlt, h0]
      have hc : (0 + step - 1) / step = 0 := Nat.div_eq_of_lt (by omega)
      rw [hc]
      simp

/-- `rangeStep 0 L B` in closed form: the multiples of `B` below `L`,
of which there are exactly `⌈L/B⌉`. -/
theorem rangeStep_zero_eq (L B : Nat) (hB : 0 < B) :
    rangeStep 0 L B = (List.range ((L + B - 1) / B)).map (· * B) := by
  rw [rangeStep, rangeStepGo_eq_map L B hB (L - 0) 0 (by omega)]
  simp

/-- The batch list in closed form: the `k`-th batch is slice
`messages[k*B : k*B + B]`. -/
theorem batches_eq_map (ms : List α) (B : Nat) (hB : 0 < B) :
    batches ms B
      = (List.range ((ms.length + B - 1) / B)).map
          (fun k => (ms.drop (k * B)).take B) := by
  rw [batches, rangeStep_zero_eq _ _ hB, List.map_map]
  rfl

/-- Unfolding a nonempty batch list: first batch, then the batches of the
rest. -/
theorem batches_cons (ms : List α) (B : Nat) (hB : 0 < B) (hms : ms ≠ []) :
    batches ms B = ms.take B :: batches (ms.drop B) B := by
  rw [batches_eq_map _ _ hB, batches_eq_map _ _ hB]
  have hL : 0 < ms.length := List.length_pos.mpr hms
  have hc : (ms.length + B - 1) / B = (ms.length - B + B - 1) / B + 1 :=
    ceilDiv_succ_step _ _ hL hB
  rw [hc, List.range_succ_eq_map, List.map_cons, List.map_map,
    List.length_drop]
  refine List.cons_eq_cons.mpr ⟨by simp, ?_⟩
  apply List.map_congr_left
  intro a _
  simp only [Function.comp_apply, Nat.succ_eq_add_one, List.drop_drop]
  congr 2
  ring

/-- Concatenating the batches gives back the original messages. -/
theorem batches_join (B : Nat) (hB : 0 < B) :
    ∀ (n : Nat) (ms : List α), ms.length ≤ n → (batches ms B).flatten = ms := by
  intro n
  induction n with
  | zero =>
    intro ms h
    have hms : ms = [] := List.length_eq_zero.mp (by omega)
    subst hms
    rfl
  | succ n ih =>
    intro ms h
    by_cases hms : ms = []
    · subst hms
      rfl
    · rw [batches_cons _ _ hB hms, List.flatten_cons,
        ih (ms.drop B) (by simp only [List.length_drop]; omega)]
      exact List.take_append_drop B ms

/-- C1: for a message sequence of length `L` and batch size `B ≥ 1`,
`add_memories_for_speaker` issues exactly `⌈L/B⌉` insert calls in order; the
`k`-th call sends the contiguous slice `messages[k*B : (k+1)*B]`, every batch
has size `≤ B`, every batch but possibly the last has size exactly `B`, and
the concatenation of the batches is the original sequence (hence batches are
non-overlapping and cover it). -/
theorem C1_batching (ms : List Msg) (B : Nat) (hB : 1 ≤ B) :
    (batches ms B).length = (ms.length + B - 1) / B ∧
    (∀ k, (hk : k < (batches ms B).length) →
      (batches ms B).get ⟨k, hk⟩ = (ms.drop (k * B)).take B) ∧
    (∀ b ∈ batches ms B, b.length ≤ B) ∧
    (∀ k, k + 1 < (batches ms B).length →
      ((ms.drop (k * B)).take B).length = B) ∧
    (batches ms B).flatten = ms := by
  have hB0 : 0 < B := hB
  refine ⟨?_, ?_, ?_, ?_, ?_⟩
  · rw [batches_eq_map _ _ hB0]
    simp
  · intro k hk
    rw [List.get_of_eq (batches_eq_map ms B hB0)]
    simp
  · intro b hb
    rw [batches_eq_map _ _ hB0] at hb
    obtain ⟨k, _, rfl⟩ := List.mem_map.mp hb
    simp [List.length_take]
  · intro k hk
    rw [batches_eq_map _ _ hB0, List.length_map, List.length_range] at hk
    have h1 : (k + 2) * B ≤ ((ms.length + B - 1) / B) * B :=
      Nat.mul_le_mul_right B (by omega)
    have h2 : ((ms.length + B - 1) / B) * B ≤ ms.length + B - 1 :=
      Nat.div_mul_le_self _ _
    have h3 : (k + 2) * B = k * B + 2 * B := by ring
    simp only [List.length_take, List.length_drop]
    omega
  · exact batches_join B hB0 ms.length ms le_rfl

/-- Witness for C1 at a concrete five-message sequence and batch size 2. -/
theorem C1_batching_witness :
    (1 ≤ 2) ∧
    ((batches [mA, mB, mA, mB, mA] 2).length = (5 + 2 - 1) / 2 ∧
     (∀ k, (hk : k < (batches [mA, mB, mA, mB, mA] 2).length) →
       (batches [mA, mB, mA, mB, mA] 2).get ⟨k, hk⟩
         = (([mA, mB, mA, mB, mA] : List Msg).drop (k * 2)).take 2) ∧
     (∀ b ∈ batches [mA, mB, mA, mB, mA] 2, b.length ≤ 2) ∧
     (∀ k, k + 1 < (batches [mA, mB, mA, mB, mA] 2).length →
       ((([mA, mB, mA, mB, mA] : List Msg).drop (k * 2)).take 2).length = 2) ∧
     (batches [mA, mB, mA, mB, mA] 2).flatten = [mA, mB, mA, mB, mA]) := by
  refine ⟨by decide, ?_⟩
  have h := C1_batching [mA, mB, mA, mB, mA] 2 (by decide)
  simpa using h

/-- C2: with the default `retries=3`, `add_memory` calls `user.insert` at
most 3 times; it returns as soon as one attempt succeeds (if attempt `k < 3`
succeeds and all earlier ones fail, exactly the attempts `0..k` are issued
and the call returns normally); an insert that fails twice and succeeds on
the third attempt yields exactly three insert calls and a normal return (one
successful send, no duplicates); and if all 3 attempts fail, the exception of
the final attempt is re-raised. -/
theorem C2_retry {E : Type} (res : Nat → Option E) :
    (add_memory res 3).1.length ≤ 3 ∧
    (∀ k, k < 3 → res k = none → (∀ j, j < k → res j ≠ none) →
      add_memory res 3 = (List.range (k + 1), none)) ∧
    (res 0 ≠ none → res 1 ≠ none → res 2 = none →
      add_memory res 3 = ([0, 1, 2], none)) ∧
    (∀ e2, res 0 ≠ none → res 1 ≠ none → res 2 = some e2 →
      add_memory res 3 = ([0, 1, 2], some e2)) := by
  refine ⟨?_, ?_, ?_, ?_⟩
  · rcases h0 : res 0 with _ | e0 <;> rcases h1 : res 1 with _ | e1 <;>
      rcases h2 : res 2 with _ | e2 <;>
      simp [add_memory, addMemoryGo, h0, h1, h2]
  · intro k hk hsucc hprev
    interval_cases k
    · simp [add_memory, addMemoryGo, hsucc, List.range_succ]
    · obtain ⟨e0, h0⟩ := Option.ne_none_iff_exists'.mp (hprev 0 (by omega))
      simp [add_memory, addMemoryGo, h0, hsucc, List.range_succ]
    · obtain ⟨e0, h0⟩ := Option.ne_none_iff_exists'.mp (hprev 0 (by omega))
      obtain ⟨e1, h1⟩ := Option.ne_none_iff_exists'.mp (hprev 1 (by omega))
      simp [add_memory, addMemoryGo, h0, h1, hsucc, List.range_succ]
  · intro h0 h1 h2
    obtain ⟨e0, h0⟩ := Option.ne_none_iff_exists'.mp h0
    obtain ⟨e1, h1⟩ := Option.ne_none_iff_exists'.mp h1
    simp [add_memory, addMemoryGo, h0, h1, h2]
  · intro e2 h0 h1 h2
    obtain ⟨e0, h0⟩ := Option.ne_none_iff_exists'.mp h0
    obtain ⟨e1, h1⟩ := Option.ne_none_iff_exists'.mp h1
    simp [add_memory, addMemoryGo, h0, h1, h2]

/-- Witness for C2: the fail-fail-succeed oracle issues exactly three insert
calls and returns normally; the always-failing oracle issues three calls and
re-raises the final attempt's exception. -/
theorem C2_retry_witness :
    (resThirdTry 0 ≠ none ∧ resThirdTry 1 ≠ none ∧ resThirdTry 2 = none ∧
      add_memory resThirdTry 3 = ([0, 1, 2], none)) ∧
    (resAllFail 0 ≠ none ∧ resAllFail 1 ≠ none ∧
      resAllFail 2 = some "down" ∧
      add_memory resAllFail 3 = ([0, 1, 2], some "down")) := by
  refine ⟨⟨by decide, by decide, by decide, ?_⟩,
    ⟨by decide, by decide, rfl, ?_⟩⟩
  · exact (C2_retry resThirdTry).2.2.1 (by decide) (by decide) (by decide)
  · exact (C2_retry resAllFail).2.2.2 "down" (by decide) (by decide) rfl

/-- C3: on a segment whose turns all carry one of the two declared speaker
labels, the splitter sends each turn to exactly one of the two per-speaker
lists — the list of the speaker whose label it carries (`messages` for
`speaker_a`, `messages_reverse` for the rest, which by hypothesis carry
`speaker_b`) — preserving relative order, and each produced message has
`content` the turn's text, `alias` the original speaker label and
`created_at` the segment timestamp. -/
theorem C3_split (a b ts : String) (chats : List Turn)
    (h : ∀ c ∈ chats, c.speaker = a ∨ c.speaker = b) :
    splitChats a b ts chats = Except.ok
      ((chats.filter fun c => c.speaker == a).map
         fun c => ⟨"user", c.text, c.speaker, ts⟩,
       (chats.filter fun c => !(c.speaker == a)).map
         fun c => ⟨"user", c.text, c.speaker, ts⟩) ∧
    (chats.filter fun c => c.speaker == a).length
      + (chats.filter fun c => !(c.speaker == a)).length = chats.length := by
  refine ⟨?_, ?_⟩
  · induction chats with
    | nil => rfl
    | cons chat rest ih =>
      have hrest : ∀ c ∈ rest, c.speaker = a ∨ c.speaker = b :=
        fun c hc => h c (List.mem_cons_of_mem _ hc)
      by_cases ha : chat.speaker = a
      · rw [splitChats, if_pos ha, ih hrest]
        simp [List.filter_cons, ha]
      · rcases h chat (List.mem_cons_self _ _) with h' | hb
        · exact absurd h' ha
        · have hba : ¬ b = a := fun hh => ha (hb.trans hh)
          rw [splitChats, if_neg ha, if_pos hb, ih hrest]
          simp [List.filter_cons, ha, hb, hba]
  · exact (@List.length_eq_length_filter_add Turn chats
      (fun c => c.speaker == a)).symm

/-- Witness for C3 at the end-to-end example segment of the spec. -/
theorem C3_split_witness :
    (∀ c ∈ ([⟨"A", "hi"⟩, ⟨"B", "yo"⟩] : List Turn),
      c.speaker = "A" ∨ c.speaker = "B") ∧
    (splitChats "A" "B" "t1" [⟨"A", "hi"⟩, ⟨"B", "yo"⟩] = Except.ok
      ((([⟨"A", "hi"⟩, ⟨"B", "yo"⟩] : List Turn).filter
          fun c => c.speaker == "A").map
         fun c => ⟨"user", c.text, c.speaker, "t1"⟩,
       (([⟨"A", "hi"⟩, ⟨"B", "yo"⟩] : List Turn).filter
          fun c => !(c.speaker == "A")).map
         fun c => ⟨"user", c.text, c.speaker, "t1"⟩) ∧
     (([⟨"A", "hi"⟩, ⟨"B", "yo"⟩] : List Turn).filter
         fun c => c.speaker == "A").length
       + (([⟨"A", "hi"⟩, ⟨"B", "yo"⟩] : List Turn).filter
           fun c => !(c.speaker == "A")).length = 2) :=
  ⟨by decide, C3_split "A" "B" "t1" [⟨"A", "hi"⟩, ⟨"B", "yo"⟩] (by decide)⟩

/-- C5 counterexample: in the end-to-end example the role field of each sent
message is `"user"`, not `"self"`; the claim "the role field of each sent
message is `self`" is false on the code. -/
theorem C5_self_role_counterexample :
    splitChats "A" "B" "t1" [⟨"A", "hi"⟩, ⟨"B", "yo"⟩]
      = Except.ok ([⟨"user", "hi", "A", "t1"⟩], [⟨"user", "yo", "B", "t1"⟩]) ∧
    ¬ (∀ pair, splitChats "A" "B" "t1" [⟨"A", "hi"⟩, ⟨"B", "yo"⟩]
        = Except.ok pair → ∀ m ∈ pair.1 ++ pair.2, m.role = "self") := by
  refine ⟨rfl, fun hclaim => ?_⟩
  have h := hclaim ([⟨"user", "hi", "A", "t1"⟩], [⟨"user", "yo", "B", "t1"⟩])
    rfl ⟨"user", "hi", "A", "t1"⟩ (by decide)
  exact absurd h (by decide)

/-- C5 amended: every outbound message in either per-speaker sequence is
tagged uniformly with the `"user"` role (the code's spelling of the "self"
role), regardless of which of the two speakers uttered the turn. -/
theorem C5_uniform_role (a b ts : String) (chats : List Turn)
    (pA pB : List Msg)
    (h : splitChats a b ts chats = Except.ok (pA, pB)) :
    (∀ m ∈ pA, m.role = "user") ∧ (∀ m ∈ pB, m.role = "user") := by
  induction chats generalizing pA pB with
  | nil =>
    rw [splitChats] at h
    simp only [Except.ok.injEq, Prod.mk.injEq] at h
    obtain ⟨h1, h2⟩ := h
    subst h1
    subst h2
    simp
  | cons chat rest ih =>
    by_cases ha : chat.speaker = a
    · rw [splitChats, if_pos ha] at h
      cases hrec : splitChats a b ts rest with
      | error e =>
        rw [hrec] at h
        simp at h
      | ok p =>
        obtain ⟨ms, mr⟩ := p
        rw [hrec] at h
        simp only [Except.ok.injEq, Prod.mk.injEq] at h
        obtain ⟨h1, h2⟩ := h
        subst h1
        subst h2
        obtain ⟨ihA, ihB⟩ := ih ms mr hrec
        refine ⟨?_, ihB⟩
        intro m hm
        rcases List.mem_cons.mp hm with rfl | hm
        · rfl
        · exact ihA m hm
    · by_cases hb : chat.speaker = b
      · rw [splitChats, if_neg ha, if_pos hb] at h
        cases hrec : splitChats a b ts rest with
        | error e =>
          rw [hrec] at h
          simp at h
        | ok p =>
          obtain ⟨ms, mr⟩ := p
          rw [hrec] at h
          simp only [Except.ok.injEq, Prod.mk.injEq] at h
          obtain ⟨h1, h2⟩ := h
          subst h1
          subst h2
          obtain ⟨ihA, ihB⟩ := ih ms mr hrec
          refine ⟨ihA, ?_⟩
          intro m hm
          rcases List.mem_cons.mp hm with rfl | hm
          · rfl
          · exact ihB m hm
      · rw [splitChats, if_neg ha, if_neg hb] at h
        simp at h

/-- Witness for the amended C5 at the end-to-end example segment. -/
theorem C5_uniform_role_witness :
    splitChats "A" "B" "t1" [⟨"A", "hi"⟩, ⟨"B", "yo"⟩]
      = Except.ok ([⟨"user", "hi", "A", "t1"⟩], [⟨"user", "yo", "B", "t1"⟩]) ∧
    ((∀ m ∈ ([⟨"user", "hi", "A", "t1"⟩] : List Msg), m.role = "user") ∧
     (∀ m ∈ ([⟨"user", "yo", "B", "t1"⟩] : List Msg), m.role = "user")) :=
  ⟨rfl,
   C5_uniform_role "A" "B" "t1" [⟨"A", "hi"⟩, ⟨"B", "yo"⟩]
     [⟨"user", "hi", "A", "t1"⟩] [⟨"user", "yo", "B", "t1"⟩] rfl⟩

/-- Any error raised by `splitChats` is the unknown-speaker `ValueError` of
some turn matching neither label, and such a turn forces an error. -/
theorem splitChats_error_char (a b ts : String) :
    ∀ chats : List Turn,
      (∀ e, splitChats a b ts chats = Except.error e →
        ∃ c ∈ chats, c.speaker ≠ a ∧ c.speaker ≠ b ∧
          e = "Unknown speaker: " ++ c.speaker) ∧
      ((∃ c ∈ chats, c.speaker ≠ a ∧ c.speaker ≠ b) →
        ∃ e, splitChats a b ts chats = Except.error e) := by
  intro chats
  induction chats with
  | nil =>
    constructor
    · intro e he
      simp [splitChats] at he
    · rintro ⟨c, hc, _⟩
      simp at hc
  | cons chat rest ih =>
    constructor
    · intro e he
      by_cases ha : chat.speaker = a
      · rw [splitChats, if_pos ha] at he
        cases hrec : splitChats a b ts rest with
        | error e2 =>
          rw [hrec] at he
          simp only [Except.error.injEq] at he
          obtain ⟨c, hc, h1, h2, h3⟩ := ih.1 e2 hrec
          exact ⟨c, List.mem_cons_of_mem _ hc, h1, h2, he ▸ h3⟩
        | ok p =>
          obtain ⟨ms, mr⟩ := p
          rw [hrec] at he
          simp at he
      · by_cases hb : chat.speaker = b
        · rw [splitChats, if_neg ha, if_pos hb] at he
          cases hrec : splitChats a b ts rest with
          | error e2 =>
            rw [hrec] at he
            simp only [Except.error.injEq] at he
            obtain ⟨c, hc, h1, h2, h3⟩ := ih.1 e2 hrec
            exact ⟨c, List.mem_cons_of_mem _ hc, h1, h2, he ▸ h3⟩
          | ok p =>
            obtain ⟨ms, mr⟩ := p
            rw [hrec] at he
            simp at he
        · rw [splitChats, if_neg ha, if_neg hb] at he
          simp only [Except.error.injEq] at he
          exact ⟨chat, List.mem_cons_self _ _, ha, hb, he.symm⟩
    · rintro ⟨c, hc, hca, hcb⟩
      rcases List.mem_cons.mp hc with rfl | hc'
      · rw [splitChats, if_neg hca, if_neg hcb]
        exact ⟨_, rfl⟩
      · obtain ⟨e, he⟩ := ih.2 ⟨c, hc', hca, hcb⟩
        by_cases ha : chat.speaker = a
        · rw [splitChats, if_pos ha, he]
          exact ⟨e, rfl⟩
        · by_cases hb : chat.speaker = b
          · rw [splitChats, if_neg ha, if_pos hb, he]
            exact ⟨e, rfl⟩
          · rw [splitChats, if_neg ha, if_neg hb]
            exact ⟨_, rfl⟩

/-- C4: splitting a segment fails iff some turn's speaker label matches
neither declared speaker; the failure is the unknown-speaker `ValueError` of
such a turn, is raised while building the message lists — before either
upload thread is started — and makes the segment produce no insert (indeed
no remote) call at all. -/
theorem C4_unknown_speaker (o : SegOracle) (a b ts : String)
    (chats : List Turn) (B : Nat) :
    ((∃ e, splitChats a b ts chats = Except.error e) ↔
      ∃ c ∈ chats, c.speaker ≠ a ∧ c.speaker ≠ b) ∧
    (∀ e, splitChats a b ts chats = Except.error e →
      (∃ c ∈ chats, c.speaker ≠ a ∧ c.speaker ≠ b ∧
        e = "Unknown speaker: " ++ c.speaker) ∧
      processSegment o a b ts chats B = ([], some e)) := by
  constructor
  · constructor
    · rintro ⟨e, he⟩
      obtain ⟨c, hc, h1, h2, _⟩ := (splitChats_error_char a b ts chats).1 e he
      exact ⟨c, hc, h1, h2⟩
    · exact fun h => (splitChats_error_char a b ts chats).2 h
  · intro e he
    refine ⟨(splitChats_error_char a b ts chats).1 e he, ?_⟩
    simp only [processSegment, he]

/-- Witness for C4: a segment with the undeclared speaker `"C"` raises the
unknown-speaker error and produces an empty remote-call trace. -/
theorem C4_unknown_speaker_witness :
    splitChats "A" "B" "t1" [⟨"C", "hey"⟩]
      = Except.error "Unknown speaker: C" ∧
    ((∃ c ∈ ([⟨"C", "hey"⟩] : List Turn),
        c.speaker ≠ "A" ∧ c.speaker ≠ "B" ∧
        "Unknown speaker: C" = "Unknown speaker: " ++ c.speaker) ∧
      processSegment ⟨okOracle, okOracle⟩ "A" "B" "t1" [⟨"C", "hey"⟩] 2
        = ([], some "Unknown speaker: C")) :=
  ⟨rfl,
   (C4_unknown_speaker ⟨okOracle, okOracle⟩ "A" "B" "t1" [⟨"C", "hey"⟩] 2).2
     "Unknown speaker: C" rfl⟩

/-- The batch loop of `add_memories_for_speaker` emits only insert events:
no flush, profile fetch or file write happens while batches are uploading. -/
theorem runBatches_events (f : Nat → Nat → Option String) :
    ∀ (bs : List (List Msg)) (i : Nat) (ev : Ev),
      ev ∈ (runBatches f bs i).1 → ∃ b att, ev = Ev.insert b att := by
  intro bs
  induction bs with
  | nil =>
    intro i ev h
    simp [runBatches] at h
  | cons b rest ih =>
    intro i ev h
    simp only [runBatches] at h
    cases hr : (add_memory (f i) 3).2 with
    | none =>
      rw [hr] at h
      simp only [List.mem_append, List.mem_map] at h
      rcases h with ⟨att, _, rfl⟩ | h
      · exact ⟨b, att, rfl⟩
      · exact ih (i + 1) ev h
    | some e =>
      rw [hr] at h
      simp only [List.mem_map] at h
      obtain ⟨att, _, rfl⟩ := h
      exact ⟨b, att, rfl⟩

/-- C7: when every batch insert eventually succeeded and the flush
succeeded, a failure of the profile fetch or of the snapshot file write is
caught and logged, not propagated: `add_memories_for_speaker` still returns
normally. -/
theorem C7_profile_failure_swallowed (o : SpeakerOracle) (ms : List Msg)
    (B : Nat)
    (hins : (runBatches o.insertRes (batches ms B) 0).2 = none)
    (hfl : o.flushRes = none) :
    (add_memories_for_speaker o ms B).2 = none ∧
    Ev.flush ∈ (add_memories_for_speaker o ms B).1 ∧
    ((o.profileRes ≠ none ∨ o.writeRes ≠ none) →
      Ev.logProfileFailure ∈ (add_memories_for_speaker o ms B).1) := by
  simp only [add_memories_for_speaker, hins, hfl]
  rcases hp : o.profileRes with _ | ep
  · rcases hw : o.writeRes with _ | ew
    · simp [hp, hw]
    · simp [hp, hw]
  · simp [hp]

/-- Witness for C7: with all inserts and the flush succeeding but the
profile fetch failing, the upload still returns normally and logs the
profile failure. -/
theorem C7_profile_failure_swallowed_witness :
    (runBatches profileFailOracle.insertRes (batches [mA, mB, mA] 2) 0).2
      = none ∧
    profileFailOracle.flushRes = none ∧
    ((add_memories_for_speaker profileFailOracle [mA, mB, mA] 2).2 = none ∧
     Ev.flush ∈ (add_memories_for_speaker profileFailOracle [mA, mB, mA] 2).1 ∧
     ((profileFailOracle.profileRes ≠ none ∨
        profileFailOracle.writeRes ≠ none) →
       Ev.logProfileFailure
         ∈ (add_memories_for_speaker profileFailOracle [mA, mB, mA] 2).1)) :=
  ⟨rfl, rfl,
   C7_profile_failure_swallowed profileFailOracle [mA, mB, mA] 2 rfl rfl⟩

/-- C10: a failure of `u.flush()` after all of a speaker's batches were
inserted successfully is neither retried nor caught: it propagates out of
`add_memories_for_speaker`, the trace ends with the single flush call, and
the profile snapshot is neither fetched nor written. -/
theorem C10_flush_failure_propagates (o : SpeakerOracle) (ms : List Msg)
    (B : Nat) (e : String)
    (hins : (runBatches o.insertRes (batches ms B) 0).2 = none)
    (hfl : o.flushRes = some e) :
    (add_memories_for_speaker o ms B).2 = some e ∧
    (add_memories_for_speaker o ms B).1
      = (runBatches o.insertRes (batches ms B) 0).1 ++ [Ev.flush] ∧
    Ev.profileFetch ∉ (add_memories_for_speaker o ms B).1 ∧
    Ev.profileWrite ∉ (add_memories_for_speaker o ms B).1 := by
  have h2 : add_memories_for_speaker o ms B
      = ((runBatches o.insertRes (batches ms B) 0).1 ++ [Ev.flush], some e) := by
    simp only [add_memories_for_speaker, hins, hfl]
  rw [h2]
  refine ⟨rfl, rfl, ?_, ?_⟩
  · intro hmem
    rcases List.mem_append.mp hmem with h | h
    · obtain ⟨b, att, hh⟩ := runBatches_events o.insertRes (batches ms B) 0 _ h
      simp at hh
    · simp at h
  · intro hmem
    rcases List.mem_append.mp hmem with h | h
    · obtain ⟨b, att, hh⟩ := runBatches_events o.insertRes (batches ms B) 0 _ h
      simp at hh
    · simp at h

/-- Witness for C10: with inserts succeeding and `u.flush()` failing, the
failure propagates and no profile step runs. -/
theorem C10_flush_failure_propagates_witness :
    (runBatches flushFailOracle.insertRes (batches [mA, mB, mA] 2) 0).2
      = none ∧
    flushFailOracle.flushRes = some "flush down" ∧
    ((add_memories_for_speaker flushFailOracle [mA, mB, mA] 2).2
        = some "flush down" ∧
     (add_memories_for_speaker flushFailOracle [mA, mB, mA] 2).1
        = (runBatches flushFailOracle.insertRes (batches [mA, mB, mA] 2) 0).1
          ++ [Ev.flush] ∧
     Ev.profileFetch
        ∉ (add_memories_for_speaker flushFailOracle [mA, mB, mA] 2).1 ∧
     Ev.profileWrite
        ∉ (add_memories_for_speaker flushFailOracle [mA, mB, mA] 2).1) :=
  ⟨rfl, rfl,
   C10_flush_failure_propagates flushFailOracle [mA, mB, mA] 2 "flush down"
     rfl rfl⟩

/-- C6 counterexample: both `delete_user` calls sit in one `try` block, so
when the first delete raises, the second identity's delete is never
attempted — refuting the claim that a failure of either delete does not
prevent the other identity's delete from being attempted. -/
theorem C6_delete_counterexample :
    deleteUsers (some "boom") none = [CEv.deleteA] ∧
    CEv.deleteB ∉ (process_conversation (some "boom") none okSegOracle
      convExample 2).1 ∧
    (process_conversation (some "boom") none okSegOracle convExample 2).2
      = none := by
  refine ⟨rfl, ?_, rfl⟩
  decide

/-- C6 amended: before any segment is processed the deletes are attempted
(speaker A's identity first); a delete failure is swallowed and changes
neither the segment processing nor the overall result; but because both
deletes share one `try` block, the second delete is attempted iff the first
one succeeds — a failure of the first delete skips the second. -/
theorem C6_delete_best_effort (delA delB : Option String)
    (oracles : Nat → SegOracle) (conv : Conversation) (B : Nat) :
    (process_conversation delA delB oracles conv B).2
      = (process_conversation none none oracles conv B).2 ∧
    (process_conversation delA delB oracles conv B).1
      = deleteUsers delA delB
        ++ (processSegments oracles conv.speaker_a conv.speaker_b B
              conv.segments 0).1 ∧
    CEv.deleteA ∈ deleteUsers delA delB ∧
    (delA = none → deleteUsers delA delB = [CEv.deleteA, CEv.deleteB]) ∧
    (∀ e, delA = some e → deleteUsers delA delB = [CEv.deleteA]) := by
  refine ⟨rfl, rfl, ?_, ?_, ?_⟩
  · cases delA <;> simp [deleteUsers]
  · rintro rfl
    rfl
  · rintro e rfl
    rfl

/-- Witness for the amended C6: a failing first delete leaves the overall
result unchanged and the delete trace is `[deleteA]` only. -/
theorem C6_delete_best_effort_witness :
    (process_conversation (some "boom") none okSegOracle convExample 2).2
      = (process_conversation none none okSegOracle convExample 2).2 ∧
    deleteUsers (some "boom") none = [CEv.deleteA] :=
  ⟨(C6_delete_best_effort (some "boom") none okSegOracle convExample 2).1,
   (C6_delete_best_effort (some "boom") none okSegOracle convExample
     2).2.2.2.2 "boom" rfl⟩

/-- C8 counterexample: the cap `max_samples=0` satisfies `N ≤ len(data)`,
but `if max_samples:` is falsy at `0`, so no truncation happens and the
whole one-record dataset is processed instead of zero records. -/
theorem C8_max_samples_counterexample :
    process_all_conversations (some [(7 : Nat)]) (some 0)
      = Except.ok [(0, 7)] ∧
    process_all_conversations (some [(7 : Nat)]) (some 0)
      ≠ Except.ok ([] : List (Nat × Nat)) := by
  refine ⟨rfl, fun h => ?_⟩
  have h2 : (Except.ok [((0 : Nat), (7 : Nat))]
      : Except String (List (Nat × Nat))) = Except.ok [] := h
  injection h2 with h3
  simp at h3

/-- C8 amended: for every cap `N` (`max_samples`) with `1 ≤ N ≤` dataset
length, the driver submits exactly the first `N` records, each paired with
its index, in original order; records beyond the first `N` are not
submitted. -/
theorem C8_max_samples_truncation (d : List α) (N : Nat)
    (h1 : 1 ≤ N) (h2 : N ≤ d.length) :
    process_all_conversations (some d) (some N)
      = Except.ok (d.take N).enum ∧
    (d.take N).enum.length = N ∧
    (∀ k, k < N → ∃ x, d[k]? = some x ∧ (d.take N).enum[k]? = some (k, x)) := by
  have hd : d.isEmpty = false := by
    cases d with
    | nil => simp at h2; omega
    | cons x xs => rfl
  have ht : truthy (some N) = true := by
    simp [truthy]
    omega
  refine ⟨?_, ?_, ?_⟩
  · simp [process_all_conversations, hd, ht]
  · simp [List.enum_length, List.length_take]
    omega
  · intro k hk
    have hkd : k < d.length := by omega
    have hk2 : k < (d.take N).length := by
      simp [List.length_take]
      omega
    refine ⟨d[k], List.getElem?_eq_getElem hkd, ?_⟩
    rw [List.getElem?_enum, List.getElem?_eq_getElem hk2]
    simp [List.getElem_take]

/-- Witness for the amended C8 on a three-record dataset with cap 2. -/
theorem C8_max_samples_truncation_witness :
    (1 ≤ 2 ∧ 2 ≤ ([10, 20, 30] : List Nat).length) ∧
    process_all_conversations (some ([10, 20, 30] : List Nat)) (some 2)
      = Except.ok [(0, 10), (1, 20)] ∧
    (([10, 20, 30] : List Nat).take 2).enum = [(0, 10), (1, 20)] :=
  ⟨⟨by decide, by decide⟩,
   by
     rw [(C8_max_samples_truncation ([10, 20, 30] : List Nat) 2 (by decide)
       (by decide)).1]
     rfl,
   rfl⟩

/-- C9: if no data was loaded or the loaded dataset is an empty array,
`process_all_conversations` raises `ValueError` before submitting any task;
and it never returns normally with zero submitted tasks. -/
theorem C9_empty_data {α : Type} (data : Option (List α)) (ms : Option Nat) :
    ((data = none ∨ data = some []) →
      ∃ e, process_all_conversations data ms = Except.error e) ∧
    (∀ l, process_all_conversations data ms = Except.ok l → l ≠ []) := by
  constructor
  · rintro (rfl | rfl)
    · exact ⟨_, rfl⟩
    · exact ⟨_, rfl⟩
  · intro l hl hnil
    subst hnil
    cases data with
    | none => simp [process_all_conversations] at hl
    | some d =>
      rw [process_all_conversations] at hl
      by_cases hd : d.isEmpty = true
      · rw [if_pos hd] at hl
        simp at hl
      · rw [if_neg hd] at hl
        have hdlen : 0 < d.length := by
          cases d with
          | nil => simp at hd
          | cons x xs => simp
        cases htr : truthy ms with
        | false =>
          rw [htr] at hl
          simp only [Bool.false_eq_true, if_false, Except.ok.injEq] at hl
          have hlen := congrArg List.length hl
          rw [List.enum_length] at hlen
          simp only [List.length_nil] at hlen
          omega
        | true =>
          rw [htr] at hl
          simp only [if_true, Except.ok.injEq] at hl
          cases ms with
          | none => simp [truthy] at htr
          | some n =>
            have hn : n ≠ 0 := by simpa [truthy] using htr
            have hlen := congrArg List.length hl
            rw [List.enum_length, List.length_take] at hlen
            simp only [Option.getD_some, List.length_nil] at hlen
            omega

/-- Witness for C9: an empty dataset raises; a nonempty dataset yields a
nonempty task list. -/
theorem C9_empty_data_witness :
    (∃ e, process_all_conversations (some ([] : List Nat)) none
        = Except.error e) ∧
    ([((0 : Nat), (5 : Nat))] ≠ ([] : List (Nat × Nat))) :=
  ⟨(C9_empty_data (some ([] : List Nat)) none).1 (Or.inr rfl),
   (C9_empty_data (some [5]) none).2 [(0, 5)] rfl⟩
